import Mathlib

/-!
# Verification of the Vex configuration manager core

A shallow embedding, in Lean 4, of the core of the `vex` QEMU
configuration manager (Rust): the parameter-substitution engine and the
`exec` and `rename` commands (`src/commands/exec.rs`,
`src/commands/rename.rs`).  External collaborators (filesystem,
environment, process spawning, version probe, interactive confirmation)
are passed in explicitly as function-valued parameters, so every command
becomes a pure, executable Lean function of its inputs.
-/

namespace Vex

/-- Modelled from the spec: the Configuration Record (`struct QemuConfig`
in `src/config.rs`, whose source file is not included).  Field set per
spec section 3 and the field accesses in `exec.rs` / `rename.rs`:
`qemu_bin`, `args`, optional `desc`, optional `qemu_version`. -/
structure QemuConfig where
  qemu_bin : String
  args : List String
  desc : Option String
  qemu_version : Option String
deriving Repr, DecidableEq

/-! ## Parameter substitution engine (`substitute_params`, exec.rs:132-142)

The Rust code compiles the regex `\$\{([^}]+)\}` and calls
`Regex::replace_all` on each argument: every leftmost-first,
non-overlapping match `${NAME}` (NAME one or more characters other than
`}`) is replaced by `std::env::var(NAME)` when that variable is set, and
by the literal text `${NAME}` (the match itself, unchanged) when it is
not.  The environment is embedded as a function
`String → Option String` (`std::env::var` returning `Ok`/`Err`).

The scan is embedded on character lists.  `splitAtBrace l` splits `l` at
its first `}`: it returns `some (name, rest)` with
`l = name ++ '}' :: rest` and no `}` in `name`, or `none` when `l`
contains no `}`. -/

def splitAtBrace : List Char → Option (List Char × List Char)
  | [] => none
  | c :: l =>
      if c = '}' then some ([], l)
      else
        match splitAtBrace l with
        | some (name, rest) => some (c :: name, rest)
        | none => none

theorem splitAtBrace_eq_some {l name rest : List Char}
    (h : splitAtBrace l = some (name, rest)) :
    l = name ++ '}' :: rest ∧ '}' ∉ name := by
  induction l generalizing name rest with
  | nil => simp [splitAtBrace] at h
  | cons c l ih =>
    rw [splitAtBrace] at h
    by_cases hc : c = '}'
    · simp [hc] at h
      obtain ⟨h1, h2⟩ := h
      subst h1; subst h2
      simp [hc]
    · simp [hc] at h
      cases hs : splitAtBrace l with
      | none => rw [hs] at h; simp at h
      | some p =>
        obtain ⟨name', rest'⟩ := p
        rw [hs] at h
        simp at h
        obtain ⟨h1, h2⟩ := h
        obtain ⟨he, hn⟩ := ih hs
        subst he; subst h2
        simp [← h1, hn, hc]
        exact fun hh => hc hh.symm

theorem splitAtBrace_length {l name rest : List Char}
    (h : splitAtBrace l = some (name, rest)) :
    l.length = name.length + 1 + rest.length := by
  have := (splitAtBrace_eq_some h).1
  subst this
  simp
  omega

/-- One pass of `Regex::replace_all` with pattern `\$\{([^}]+)\}` over a
character list.  At `'$' :: '{' :: l`:
* if `l` has no `}` at all, no match can start here or anywhere later
  (every match needs a closing `}`), so the whole input is literal;
* if the first `}` of `l` is immediate (`name = []`), the regex cannot
  match at this position (`[^}]+` needs at least one character), and no
  match can begin at the `'{'` or `'}'` either, so those characters are
  emitted and scanning resumes after the `}`;
* otherwise `${name}` is a match: it is replaced by the variable's value
  when set, and re-emitted verbatim when unset
  (`format!("${{{}}}", &caps[1])`), and scanning resumes after the
  match (the replacement is never re-scanned). -/
def substChars (env : String → Option String) : List Char → List Char
  | [] => []
  | '$' :: '{' :: l =>
      match h : splitAtBrace l with
      | some ([], rest) => '$' :: '{' :: '}' :: substChars env rest
      | some (c :: name, rest) =>
          match env (String.mk (c :: name)) with
          | some v => v.data ++ substChars env rest
          | none => '$' :: '{' :: ((c :: name) ++ '}' :: substChars env rest)
      | none => '$' :: '{' :: l
  | c :: l => c :: substChars env l
termination_by l => l.length
decreasing_by
  all_goals simp_wf
  all_goals (have hlen := splitAtBrace_length h; simp at hlen; omega)

/-- `substitute_params` (exec.rs:132-142): map the substitution scan over
the argument list. -/
def substitute_params (env : String → Option String) (args : List String) :
    List String :=
  args.map (fun arg => String.mk (substChars env arg.data))


theorem splitAtBrace_append (rest : List Char) {name : List Char} (h : '}' ∉ name) :
    splitAtBrace (name ++ '}' :: rest) = some (name, rest) := by
  induction name with
  | nil => simp [splitAtBrace]
  | cons c name ih =>
    simp only [List.mem_cons, not_or] at h
    rw [List.cons_append, splitAtBrace]
    have hc : ¬ c = '}' := fun hh => h.1 hh.symm
    simp [hc, ih h.2]

theorem substChars_nil (env : String → Option String) : substChars env [] = [] := by
  rw [substChars.eq_def]

theorem substChars_cons_ne_dollar (env : String → Option String) (c : Char)
    (l : List Char) (h : c ≠ '$') :
    substChars env (c :: l) = c :: substChars env l := by
  rw [substChars.eq_def]
  split
  · simp_all
  · simp_all
  · next c' l' hno heq =>
      rw [List.cons.injEq] at heq
      rw [heq.1, heq.2]

theorem substChars_dollar_ne_brace (env : String → Option String) (c : Char)
    (l : List Char) (h : c ≠ '{') :
    substChars env ('$' :: c :: l) = '$' :: substChars env (c :: l) := by
  rw [substChars.eq_def]
  split
  · simp_all
  · simp_all
  · next c' l' hno heq =>
      rw [List.cons.injEq] at heq
      rw [heq.1, heq.2]

theorem substChars_no_close (env : String → Option String) (l : List Char)
    (h : splitAtBrace l = none) :
    substChars env ('$' :: '{' :: l) = '$' :: '{' :: l := by
  rw [substChars.eq_def]
  split
  · simp_all
  · next l' heq =>
      simp only [List.cons.injEq, true_and] at heq
      subst heq
      split <;> simp_all
  · next c' l' hno heq =>
      rw [List.cons.injEq] at heq
      exact absurd heq.2.symm (hno l (heq.1.symm))

theorem substChars_empty_name (env : String → Option String) (l : List Char) :
    substChars env ('$' :: '{' :: '}' :: l) = '$' :: '{' :: '}' :: substChars env l := by
  rw [substChars.eq_def]
  split
  · simp_all
  · next l' heq =>
      simp only [List.cons.injEq, true_and] at heq
      subst heq
      split <;> simp_all [splitAtBrace]
  · next c' l' hno heq =>
      rw [List.cons.injEq] at heq
      exact absurd heq.2.symm (hno _ (heq.1.symm))

theorem substChars_hit (env : String → Option String) (name rest : List Char)
    (v : String) (h1 : '}' ∉ name) (h2 : name ≠ [])
    (h3 : env (String.mk name) = some v) :
    substChars env ('$' :: '{' :: (name ++ '}' :: rest)) =
      v.data ++ substChars env rest := by
  have hs := splitAtBrace_append rest h1
  obtain ⟨c, name', rfl⟩ := List.exists_cons_of_ne_nil h2
  rw [substChars.eq_def]
  split
  · simp_all
  · next l' heq =>
      simp only [List.cons.injEq, true_and] at heq
      subst heq
      split <;> simp_all
  · next c' l' hno heq =>
      rw [List.cons.injEq] at heq
      exact absurd heq.2.symm (hno _ (heq.1.symm))

theorem substChars_miss (env : String → Option String) (name rest : List Char)
    (h1 : '}' ∉ name) (h2 : name ≠ [])
    (h3 : env (String.mk name) = none) :
    substChars env ('$' :: '{' :: (name ++ '}' :: rest)) =
      '$' :: '{' :: (name ++ '}' :: substChars env rest) := by
  have hs := splitAtBrace_append rest h1
  obtain ⟨c, name', rfl⟩ := List.exists_cons_of_ne_nil h2
  rw [substChars.eq_def]
  split
  · simp_all
  · next l' heq =>
      simp only [List.cons.injEq, true_and] at heq
      subst heq
      split <;> simp_all
  · next c' l' hno heq =>
      rw [List.cons.injEq] at heq
      exact absurd heq.2.symm (hno _ (heq.1.symm))

/-! ## Execution engine (`exec_command`, exec.rs:43-99)

External collaborators are embedded as an explicit world:
* `configOf` — existence plus read plus deserialization of
  `config_file(name)` (`config_file`, `fs::read_to_string`,
  `serde_json::from_str` collapsed into one lookup; `none` covers the
  missing-file case the command reports);
* `currentVersion` — `get_qemu_version(&config.qemu_bin)`, which returns
  `Option<String>` and never fails hard;
* `env` — `std::env::var`, consulted by the substitution engine;
* `spawn` — `Command::new(bin).args(args).status()`:
  `none` models a spawn error (`Err` from `.status()`), and
  `some code?` models a spawned process whose `ExitStatus` carries exit
  code `code?` (`status.code()`; `none` when the process was terminated
  without an exit code, e.g. by a signal).  On this model
  `status.success()` holds exactly when `code? = some 0`. -/
structure ExecWorld where
  configOf : String → Option QemuConfig
  currentVersion : String → Option String
  env : String → Option String
  spawn : String → List String → Option (Option Int)

/-- The advisory warnings printed by the version-drift check
(exec.rs:56-70): one warning when the detected version differs from the
recorded one, one when detection fails, none otherwise, and none at all
when the configuration records no version. -/
inductive VersionWarning where
  | mismatch (saved curr : String)
  | undetected
deriving Repr, DecidableEq

/-- Version-drift check of `exec_command` (exec.rs:56-70), as the list of
warnings it prints. -/
def version_warnings (config : QemuConfig) (curr : Option String) :
    List VersionWarning :=
  match config.qemu_version with
  | none => []
  | some saved =>
    match curr with
    | some c => if c ≠ saved then [.mismatch saved c] else []
    | none => [.undetected]

/-- Outcome of `exec_command`: `notFound` for the missing-configuration
bail (exec.rs:45-50), `spawnError` for a failed `.status()`
(exec.rs:85-88), `executionFailed code` for the
`QEMU execution failed with exit code` bail (exec.rs:90-95), `success`
for `Ok(())`. -/
inductive ExecOutcome where
  | notFound
  | spawnError
  | executionFailed (code : Int)
  | success
deriving Repr, DecidableEq

/-- Observable result of one `exec_command` run: the version warnings
printed, whether (and with which binary and argument vector) the child
process was launched, and the outcome. -/
structure ExecResult where
  warnings : List VersionWarning
  launched : Option (String × List String)
  outcome : ExecOutcome

/-- `exec_command` (exec.rs:43-99).  Mirrors the source line by line:
bail when the configuration does not exist; advisory version check;
`substitute_params` on the stored args; push `"-s"` then `"-S"` when
`debug` is set; launch; bail with the exit code (`unwrap_or(-1)`) when
the status is not success.  The `full` flag only affects the startup
banner (`print_startup_message`) and is not modelled. -/
def exec_command (w : ExecWorld) (name : String) (debug : Bool) : ExecResult :=
  match w.configOf name with
  | none => { warnings := [], launched := none, outcome := .notFound }
  | some config =>
    let warnings := version_warnings config (w.currentVersion config.qemu_bin)
    let exec_args := substitute_params w.env config.args
    let exec_args := if debug then exec_args ++ ["-s", "-S"] else exec_args
    match w.spawn config.qemu_bin exec_args with
    | none =>
        { warnings := warnings, launched := some (config.qemu_bin, exec_args),
          outcome := .spawnError }
    | some code? =>
        if code? = some 0 then
          { warnings := warnings, launched := some (config.qemu_bin, exec_args),
            outcome := .success }
        else
          { warnings := warnings, launched := some (config.qemu_bin, exec_args),
            outcome := .executionFailed (code?.getD (-1)) }

/-! ## Rename protocol (`rename_command`, rename.rs:38-89)

The filesystem is embedded as a map from configuration name to file
content (the Locator's `name ↦ config_file(name)` is injective per name,
so names index the map directly).  `parse` is `serde_json::from_str`,
`pretty` is `serde_json::to_string_pretty` (which cannot fail on this
record type), `confirm` is `prompt_user_default_no()`.  Fault injection:
`writeOk` (resp. `removeOk`) tells whether `fs::write`
(resp. `fs::remove_file`) succeeds. -/
structure RenameWorld where
  fs : String → Option String
  parse : String → Option QemuConfig
  pretty : QemuConfig → String
  confirm : Bool
  writeOk : Bool
  removeOk : Bool

/-- Result of `rename_command`.  Both `okRenamed` and `okCancelled` are
`Ok(())` in the source (a declined confirmation prints
`Rename cancelled` and returns `Ok`); the `err*` constructors are the
`?`-propagated and bailed errors. -/
inductive RenameResult where
  | okRenamed
  | okCancelled
  | errNotFound
  | errParse
  | errWrite
  | errRemove
deriving Repr, DecidableEq

/-- Whether a `rename_command` result is `Ok(())` in the source. -/
def RenameResult.isOk : RenameResult → Bool
  | okRenamed => true
  | okCancelled => true
  | _ => false

/-- Filesystem mutation events, in the order `rename_command` performs
them, recording the calls to `fs::write` and `fs::remove_file` that
succeeded. -/
inductive FsEvent where
  | wrote (name content : String)
  | removed (name : String)
deriving Repr, DecidableEq

/-- `fs::write`: map update. -/
def fs_write (fs : String → Option String) (name content : String) :
    String → Option String :=
  fun n => if n = name then some content else fs n

/-- `fs::remove_file`: map deletion. -/
def fs_remove (fs : String → Option String) (name : String) :
    String → Option String :=
  fun n => if n = name then none else fs n

/-- The description overlay of `rename_command` (rename.rs:67-70):
`if let Some(new_desc) = desc { config.desc = Some(new_desc); }`. -/
def apply_desc (desc : Option String) (config : QemuConfig) : QemuConfig :=
  match desc with
  | some d => { config with desc := some d }
  | none => config

/-- Observable result of one `rename_command` run: the result, the final
filesystem, and the successful mutation events in order. -/
structure RenameOutput where
  result : RenameResult
  fs : String → Option String
  events : List FsEvent

/-- `rename_command` (rename.rs:38-89).  Mirrors the source: bail when
`old_name` does not exist; when `new_name` exists and `force` is unset,
prompt, and return `Ok` (cancelled) on a declined confirmation; read and
deserialize the old record; overlay the description; serialize and write
to the new path; remove the old path. -/
def rename_command (w : RenameWorld) (desc : Option String) (force : Bool)
    (old_name new_name : String) : RenameOutput :=
  match w.fs old_name with
  | none => { result := .errNotFound, fs := w.fs, events := [] }
  | some config_json =>
    if (w.fs new_name).isSome && !force && !w.confirm then
      { result := .okCancelled, fs := w.fs, events := [] }
    else
      match w.parse config_json with
      | none => { result := .errParse, fs := w.fs, events := [] }
      | some config =>
        let config := apply_desc desc config
        if !w.writeOk then
          { result := .errWrite, fs := w.fs, events := [] }
        else
          let fs1 := fs_write w.fs new_name (w.pretty config)
          if !w.removeOk then
            { result := .errRemove, fs := fs1,
              events := [.wrote new_name (w.pretty config)] }
          else
            { result := .okRenamed, fs := fs_remove fs1 old_name,
              events := [.wrote new_name (w.pretty config),
                         .removed old_name] }

end Vex

namespace Vex

/-- The declarative reading of the spec's `${...}` pattern: the string
contains `${NAME}` somewhere, with NAME one or more characters other
than `}`. -/
def hasPlaceholder (s : List Char) : Prop :=
  ∃ pre name suf, name ≠ [] ∧ '}' ∉ name ∧
    s = pre ++ '$' :: '{' :: (name ++ '}' :: suf)

theorem hasPlaceholder_cons {l : List Char} (c : Char)
    (h : hasPlaceholder l) : hasPlaceholder (c :: l) := by
  obtain ⟨pre, name, suf, h1, h2, h3⟩ := h
  exact ⟨c :: pre, name, suf, h1, h2, by simp [h3]⟩

theorem hasPlaceholder_dollar_mem {s : List Char} (h : hasPlaceholder s) :
    '$' ∈ s := by
  obtain ⟨pre, name, suf, _, _, h3⟩ := h
  simp [h3]

theorem substChars_cons_not_open (env : String → Option String) (c : Char)
    (l : List Char) (h : ∀ l', ¬(c = '$' ∧ l = '{' :: l')) :
    substChars env (c :: l) = c :: substChars env l := by
  rw [substChars.eq_def]
  split
  · simp_all
  · next l' heq =>
      rw [List.cons.injEq] at heq
      exact absurd ⟨heq.1, heq.2⟩ (h l')
  · next c' l' hno heq =>
      rw [List.cons.injEq] at heq
      rw [heq.1, heq.2]

theorem substChars_id_of_no_placeholder (env : String → Option String)
    (s : List Char) (h : ¬ hasPlaceholder s) : substChars env s = s := by
  induction s using substChars.induct env with
  | case1 => exact substChars_nil env
  | case2 l rest hsplit ih =>
      obtain ⟨hl, -⟩ := splitAtBrace_eq_some hsplit
      subst hl
      simp only [List.nil_append] at h ⊢
      rw [substChars_empty_name]
      have : ¬ hasPlaceholder rest := fun hp =>
        h (hasPlaceholder_cons _ (hasPlaceholder_cons _ (hasPlaceholder_cons _ hp)))
      rw [ih this]
  | case3 l c name rest hsplit v hv ih =>
      obtain ⟨hl, hnb⟩ := splitAtBrace_eq_some hsplit
      exact absurd ⟨[], c :: name, rest, by simp, hnb, by simp [hl]⟩ h
  | case4 l c name rest hsplit hv ih =>
      obtain ⟨hl, hnb⟩ := splitAtBrace_eq_some hsplit
      exact absurd ⟨[], c :: name, rest, by simp, hnb, by simp [hl]⟩ h
  | case5 l hsplit => exact substChars_no_close env l hsplit
  | case6 c l hno ih =>
      rw [substChars_cons_not_open env c l
        (fun l' hcl => hno l' hcl.1 hcl.2)]
      rw [ih (fun hp => h (hasPlaceholder_cons c hp))]

end Vex

namespace Vex

/-- C1: for every argument and environment, if the variable `NAME` is
unset, an occurrence of `${NAME}` reached by the substitution scan is
emitted verbatim — its literal `${` `}` delimiters included — rather
than replaced by the empty string, and the scan continues independently
on the remainder (so, applied repeatedly, every occurrence in every
argument is left unchanged); in particular the spec's example: with
`FOO` unset, the argument `"--id=${FOO}"` comes back unchanged. -/
theorem C1_unset_placeholder_left_unchanged
    (env : String → Option String) (name rest : List Char)
    (hne : name ≠ []) (hnb : '}' ∉ name)
    (hunset : env (String.mk name) = none) :
    substChars env ('$' :: '{' :: (name ++ '}' :: rest)) =
      '$' :: '{' :: (name ++ '}' :: substChars env rest) ∧
    (env "FOO" = none →
      substitute_params env ["--id=${FOO}"] = ["--id=${FOO}"]) := by
  refine ⟨substChars_miss env name rest hnb hne hunset, fun hfoo => ?_⟩
  simp [substitute_params, substChars, splitAtBrace, hfoo]

theorem C1_witness :
    ((("FOO".data ≠ []) ∧ ('}' ∉ "FOO".data) ∧
        ((fun (_ : String) => (none : Option String)) (String.mk "FOO".data) =
          none)) ∧
      (substChars (fun _ => none) ('$' :: '{' :: ("FOO".data ++ '}' :: [])) =
          '$' :: '{' :: ("FOO".data ++ '}' :: substChars (fun _ => none) []) ∧
        ((fun (_ : String) => (none : Option String)) "FOO" = none →
          substitute_params (fun _ => none) ["--id=${FOO}"] =
            ["--id=${FOO}"]))) :=
  ⟨⟨by decide, by decide, rfl⟩,
    C1_unset_placeholder_left_unchanged (fun _ => none) "FOO".data []
      (by decide) (by decide) rfl⟩

/-- C2: for every argument and environment, an occurrence of `${NAME}`
reached by the substitution scan, with `NAME` set to `v` in the
environment, is replaced by `v`, and the scan continues independently on
the remainder of the argument (so multiple placeholders in one argument
are each substituted, left to right, and a substituted value is never
re-scanned); in particular the spec's example: with `FOO=bar`, the
argument `"--id=${FOO}"` becomes `"--id=bar"`. -/
theorem C2_set_placeholder_substituted
    (env : String → Option String) (name rest : List Char) (v : String)
    (hne : name ≠ []) (hnb : '}' ∉ name)
    (hset : env (String.mk name) = some v) :
    substChars env ('$' :: '{' :: (name ++ '}' :: rest)) =
      v.data ++ substChars env rest ∧
    (env "FOO" = some "bar" →
      substitute_params env ["--id=${FOO}"] = ["--id=bar"]) := by
  refine ⟨substChars_hit env name rest v hnb hne hset, fun hfoo => ?_⟩
  simp [substitute_params, substChars, splitAtBrace, hfoo]

theorem C2_witness :
    ((("FOO".data ≠ []) ∧ ('}' ∉ "FOO".data) ∧
        ((fun (n : String) => if n = "FOO" then some "bar" else none)
            (String.mk "FOO".data) = some "bar")) ∧
      (substChars (fun n => if n = "FOO" then some "bar" else none)
            ('$' :: '{' :: ("FOO".data ++ '}' :: [])) =
          "bar".data ++
            substChars (fun n => if n = "FOO" then some "bar" else none) [] ∧
        ((fun (n : String) => if n = "FOO" then some "bar" else none) "FOO" =
            some "bar" →
          substitute_params (fun n => if n = "FOO" then some "bar" else none)
              ["--id=${FOO}"] = ["--id=bar"]))) :=
  ⟨⟨by decide, by decide, rfl⟩,
    C2_set_placeholder_substituted
      (fun n => if n = "FOO" then some "bar" else none) "FOO".data [] "bar"
      (by decide) (by decide) rfl⟩

/-- C9: for every argument list none of whose elements contains a
`${NAME}` pattern (`NAME` nonempty, `}`-free), the substitution engine
returns the list unchanged, element for element, whatever the
environment. -/
theorem C9_no_placeholder_identity (env : String → Option String)
    (args : List String) (h : ∀ a ∈ args, ¬ hasPlaceholder a.data) :
    substitute_params env args = args := by
  unfold substitute_params
  induction args with
  | nil => rfl
  | cons a args ih =>
    rw [List.map_cons]
    rw [substChars_id_of_no_placeholder env a.data (h a (by simp))]
    rw [ih (fun b hb => h b (by simp [hb]))]

theorem C9_witness :
    ((∀ a ∈ ["-m", "2G", "-enable-kvm"], ¬ hasPlaceholder a.data) ∧
      substitute_params (fun _ => some "surprise") ["-m", "2G", "-enable-kvm"] =
        ["-m", "2G", "-enable-kvm"]) :=
  have hno : ∀ a ∈ ["-m", "2G", "-enable-kvm"], ¬ hasPlaceholder a.data :=
    fun a ha hp => by
      have hd := hasPlaceholder_dollar_mem hp
      fin_cases ha <;> revert hd <;> decide
  ⟨hno, C9_no_placeholder_identity (fun _ => some "surprise")
    ["-m", "2G", "-enable-kvm"] hno⟩

end Vex

namespace Vex

/-- A concrete Configuration Record used by the exec witnesses. -/
def demoConfig : QemuConfig :=
  { qemu_bin := "qemu-system-x86_64", args := ["-m", "512"],
    desc := none, qemu_version := some "8.0.0" }

/-- A concrete execution world, parameterized by the spawn result, used
by the exec witnesses. -/
def demoExecWorld (spawnResult : Option (Option Int)) : ExecWorld :=
  { configOf := fun _ => some demoConfig
    currentVersion := fun _ => none
    env := fun _ => none
    spawn := fun _ _ => spawnResult }

/-- C3: whenever the configuration exists and the debug flag is set, the
argument list the child is launched with is exactly the substituted
stored argument list with the two fixed literal tokens `"-s"` then
`"-S"` appended at its end: injection happens after parameter
substitution, in a fixed position. -/
theorem C3_debug_appends_fixed_tokens (w : ExecWorld) (name : String)
    (config : QemuConfig) (h : w.configOf name = some config) :
    (exec_command w name true).launched =
      some (config.qemu_bin,
        substitute_params w.env config.args ++ ["-s", "-S"]) := by
  cases hs : w.spawn config.qemu_bin
      (substitute_params w.env config.args ++ ["-s", "-S"]) with
  | none => simp [exec_command, h, hs]
  | some code? => by_cases hc : code? = some 0 <;> simp [exec_command, h, hs, hc]

theorem C3_witness :
    ((demoExecWorld (some (some 0))).configOf "vm" = some demoConfig) ∧
    (exec_command (demoExecWorld (some (some 0))) "vm" true).launched =
      some (demoConfig.qemu_bin,
        substitute_params (demoExecWorld (some (some 0))).env demoConfig.args ++
          ["-s", "-S"]) :=
  ⟨rfl, C3_debug_appends_fixed_tokens (demoExecWorld (some (some 0))) "vm"
    demoConfig rfl⟩

/-- C4: whenever the configuration exists and the child process spawns
and exits with numeric code `c`, `exec_command` fails with
`executionFailed c` when `c ≠ 0` (e.g. `c = 3` gives
`executionFailed 3`), and returns success when `c = 0`. -/
theorem C4_exit_code_propagated (w : ExecWorld) (name : String)
    (debug : Bool) (config : QemuConfig) (c : Int)
    (hcfg : w.configOf name = some config)
    (hspawn : w.spawn config.qemu_bin
        (if debug then substitute_params w.env config.args ++ ["-s", "-S"]
         else substitute_params w.env config.args) = some (some c)) :
    (c ≠ 0 → (exec_command w name debug).outcome = .executionFailed c) ∧
    (c = 0 → (exec_command w name debug).outcome = .success) := by
  constructor <;> intro hc <;> simp [exec_command, hcfg, hspawn, hc]

theorem C4_witness :
    (3 : Int) ≠ 0 ∧
    (exec_command (demoExecWorld (some (some 3))) "vm" false).outcome =
      .executionFailed 3 :=
  ⟨by decide,
    (C4_exit_code_propagated (demoExecWorld (some (some 3))) "vm" false
      demoConfig 3 rfl rfl).1 (by decide)⟩

/-- C10: whenever the configuration exists and the child process spawns
but terminates without a numeric exit code (`status.code()` is `None`,
e.g. killed by a signal), `exec_command` fails with the sentinel
`executionFailed (-1)` (`status.code().unwrap_or(-1)`). -/
theorem C10_no_exit_code_sentinel (w : ExecWorld) (name : String)
    (debug : Bool) (config : QemuConfig)
    (hcfg : w.configOf name = some config)
    (hspawn : w.spawn config.qemu_bin
        (if debug then substitute_params w.env config.args ++ ["-s", "-S"]
         else substitute_params w.env config.args) = some none) :
    (exec_command w name debug).outcome = .executionFailed (-1) := by
  simp [exec_command, hcfg, hspawn]

theorem C10_witness :
    (exec_command (demoExecWorld (some none)) "vm" false).outcome =
      .executionFailed (-1) :=
  C10_no_exit_code_sentinel (demoExecWorld (some none)) "vm" false
    demoConfig rfl rfl

/-- C8: whenever the configuration exists, the version-drift check never
blocks execution: the flow always proceeds to substitute the arguments
and launch the binary (`launched` is always populated with the effective
argument list), the outcome is entirely determined by the spawn result,
and replacing the version probe by any other probe changes neither what
is launched nor the outcome — at most the printed warnings. -/
theorem C8_version_check_advisory (w : ExecWorld) (name : String)
    (debug : Bool) (config : QemuConfig)
    (hcfg : w.configOf name = some config) :
    (exec_command w name debug).launched =
      some (config.qemu_bin,
        if debug then substitute_params w.env config.args ++ ["-s", "-S"]
        else substitute_params w.env config.args) ∧
    (exec_command w name debug).outcome =
      (match w.spawn config.qemu_bin
          (if debug then substitute_params w.env config.args ++ ["-s", "-S"]
           else substitute_params w.env config.args) with
        | none => ExecOutcome.spawnError
        | some code? =>
            if code? = some 0 then ExecOutcome.success
            else ExecOutcome.executionFailed (code?.getD (-1))) ∧
    ∀ cv : String → Option String,
      (exec_command { w with currentVersion := cv } name debug).launched =
        (exec_command w name debug).launched ∧
      (exec_command { w with currentVersion := cv } name debug).outcome =
        (exec_command w name debug).outcome := by
  refine ⟨?_, ?_, ?_⟩
  · cases hs : w.spawn config.qemu_bin
        (if debug then substitute_params w.env config.args ++ ["-s", "-S"]
         else substitute_params w.env config.args) with
    | none => simp [exec_command, hcfg, hs]
    | some code? =>
        by_cases hc : code? = some 0 <;> simp [exec_command, hcfg, hs, hc]
  · cases hs : w.spawn config.qemu_bin
        (if debug then substitute_params w.env config.args ++ ["-s", "-S"]
         else substitute_params w.env config.args) with
    | none => simp [exec_command, hcfg, hs]
    | some code? =>
        by_cases hc : code? = some 0 <;> simp [exec_command, hcfg, hs, hc]
  · intro cv
    cases hs : w.spawn config.qemu_bin
        (if debug then substitute_params w.env config.args ++ ["-s", "-S"]
         else substitute_params w.env config.args) with
    | none => simp [exec_command, hcfg, hs]
    | some code? =>
        by_cases hc : code? = some 0 <;> simp [exec_command, hcfg, hs, hc]

theorem C8_witness :
    ((demoExecWorld (some (some 0))).configOf "vm" = some demoConfig) ∧
    (exec_command (demoExecWorld (some (some 0))) "vm" false).launched =
      some (demoConfig.qemu_bin,
        if false then
          substitute_params (demoExecWorld (some (some 0))).env
              demoConfig.args ++ ["-s", "-S"]
        else substitute_params (demoExecWorld (some (some 0))).env
          demoConfig.args) :=
  ⟨rfl, (C8_version_check_advisory (demoExecWorld (some (some 0))) "vm" false
    demoConfig rfl).1⟩

end Vex

namespace Vex

/-- A concrete rename world, parameterized by the confirmation answer
and the write/remove fault switches, used by the rename witnesses. -/
def demoRenameWorld (confirm writeOk removeOk : Bool) : RenameWorld :=
  { fs := fun n => if n = "a" then some "JA" else
      if n = "b" then some "JB" else none
    parse := fun _ => some demoConfig
    pretty := fun _ => "OUT"
    confirm := confirm
    writeOk := writeOk
    removeOk := removeOk }

/-- Shape of the filesystem-mutation trace of any `rename_command` run:
either nothing was mutated, or the new file was written, or the new file
was written and then the old file removed. -/
theorem rename_events_shape (w : RenameWorld) (desc : Option String)
    (force : Bool) (old_name new_name : String) :
    (rename_command w desc force old_name new_name).events = [] ∨
    (∃ content,
      (rename_command w desc force old_name new_name).events =
        [FsEvent.wrote new_name content] ∨
      (rename_command w desc force old_name new_name).events =
        [FsEvent.wrote new_name content, FsEvent.removed old_name]) := by
  unfold rename_command
  cases w.fs old_name with
  | none => exact Or.inl rfl
  | some j =>
    by_cases hcond : ((w.fs new_name).isSome && !force && !w.confirm) = true
    · exact Or.inl (by simp [hcond])
    · simp only [hcond, if_false, Bool.false_eq_true]
      cases w.parse j with
      | none => exact Or.inl rfl
      | some config =>
        by_cases hw : w.writeOk
        · by_cases hr : w.removeOk
          · exact Or.inr ⟨w.pretty (apply_desc desc config),
              Or.inr (by simp [hw, hr])⟩
          · exact Or.inr ⟨w.pretty (apply_desc desc config),
              Or.inl (by simp [hw, hr])⟩
        · exact Or.inl (by simp [hw])

/-- C5: in every run of the rename operation, the old configuration file
is removed only after the new configuration file has been written: in
the trace of successful filesystem mutations, any removal of `old_name`
is preceded by a write of `new_name`; and if writing the new file fails,
the operation fails (`errWrite` is not `Ok`) and the old configuration
is still present, unchanged, under its old name. -/
theorem C5_old_removed_only_after_new_written (w : RenameWorld)
    (desc : Option String) (force : Bool) (old_name new_name : String) :
    (∀ pre suf,
        (rename_command w desc force old_name new_name).events =
          pre ++ FsEvent.removed old_name :: suf →
        ∃ content, FsEvent.wrote new_name content ∈ pre) ∧
    ((rename_command w desc force old_name new_name).result =
        RenameResult.errWrite →
      RenameResult.isOk RenameResult.errWrite = false ∧
      (rename_command w desc force old_name new_name).fs old_name =
        w.fs old_name) := by
  constructor
  · intro pre suf hev
    rcases rename_events_shape w desc force old_name new_name with
      hsh | ⟨content, hsh | hsh⟩ <;> rw [hsh] at hev
    · rcases pre with _ | ⟨x, pre⟩ <;> simp at hev
    · rcases pre with _ | ⟨x, _ | ⟨y, pre⟩⟩ <;> simp at hev
    · rcases pre with _ | ⟨x, _ | ⟨y, pre⟩⟩ <;> simp at hev
      obtain ⟨hx, -⟩ := hev
      exact ⟨content, by simp [hx]⟩
  · intro hres
    refine ⟨rfl, ?_⟩
    unfold rename_command at hres ⊢
    cases hold : w.fs old_name with
    | none => exact hold
    | some j =>
      rw [hold] at hres
      by_cases hcond : ((w.fs new_name).isSome && !force && !w.confirm) = true
      · simp only [hcond, if_true]
        exact hold
      · simp only [hcond, if_false, Bool.false_eq_true] at hres ⊢
        cases hp : w.parse j with
        | none => exact hold
        | some config =>
          rw [hp] at hres
          by_cases hw : w.writeOk
          · by_cases hr : w.removeOk <;> simp [hw, hr] at hres
          · simp [hw]
            exact hold

theorem C5_witness :
    (∃ content,
      FsEvent.wrote "b" content ∈ [FsEvent.wrote "b" "OUT"]) ∧
    (RenameResult.isOk RenameResult.errWrite = false ∧
      (rename_command (demoRenameWorld true false true) none false "a" "b").fs
          "a" =
        (demoRenameWorld true false true).fs "a") :=
  ⟨(C5_old_removed_only_after_new_written (demoRenameWorld true true true)
      none false "a" "b").1 [FsEvent.wrote "b" "OUT"] [] rfl,
    (C5_old_removed_only_after_new_written (demoRenameWorld true false true)
      none false "a" "b").2 rfl⟩

/-- C6: renaming `a` to `b` when `b` already exists, with `force` unset
and the interactive confirmation declined, is a successful no-op: the
result is `Ok` (cancellation, not an error), the filesystem is left
exactly as it was (both `a` and `b` present and unchanged), and no
mutation event happened. -/
theorem C6_declined_rename_is_noop (w : RenameWorld) (desc : Option String)
    (old_name new_name : String)
    (hold : (w.fs old_name).isSome = true)
    (hnew : (w.fs new_name).isSome = true)
    (hconfirm : w.confirm = false) :
    (rename_command w desc false old_name new_name).result =
      RenameResult.okCancelled ∧
    RenameResult.isOk RenameResult.okCancelled = true ∧
    (rename_command w desc false old_name new_name).fs = w.fs ∧
    (rename_command w desc false old_name new_name).events = [] := by
  obtain ⟨j, hj⟩ := Option.isSome_iff_exists.mp hold
  simp [rename_command, hj, hnew, hconfirm, RenameResult.isOk]

theorem C6_witness :
    (((demoRenameWorld false true true).fs "a").isSome = true ∧
      ((demoRenameWorld false true true).fs "b").isSome = true ∧
      (demoRenameWorld false true true).confirm = false) ∧
    ((rename_command (demoRenameWorld false true true) none false "a" "b").result =
        RenameResult.okCancelled ∧
      RenameResult.isOk RenameResult.okCancelled = true ∧
      (rename_command (demoRenameWorld false true true) none false "a" "b").fs =
        (demoRenameWorld false true true).fs ∧
      (rename_command (demoRenameWorld false true true) none false "a" "b").events =
        []) :=
  ⟨⟨rfl, rfl, rfl⟩,
    C6_declined_rename_is_noop (demoRenameWorld false true true) none "a" "b"
      rfl rfl rfl⟩

/-- C7: every successful rename writes under the new name exactly the
record loaded from the old name with only the description possibly
overlaid: the written record is `apply_desc desc config`, whose
`qemu_bin`, `args` and `qemu_version` equal those of the loaded record,
and whose `desc` is the supplied override when one is given and the old
record's `desc` (including absence) when not. -/
theorem C7_rename_preserves_record (w : RenameWorld) (desc : Option String)
    (force : Bool) (old_name new_name : String) (j : String)
    (config : QemuConfig)
    (hread : w.fs old_name = some j) (hparse : w.parse j = some config)
    (hprompt : force = true ∨ w.confirm = true ∨ w.fs new_name = none)
    (hwrite : w.writeOk = true) (hremove : w.removeOk = true) :
    (rename_command w desc force old_name new_name).result =
      RenameResult.okRenamed ∧
    (rename_command w desc force old_name new_name).events =
      [FsEvent.wrote new_name (w.pretty (apply_desc desc config)),
        FsEvent.removed old_name] ∧
    (apply_desc desc config).qemu_bin = config.qemu_bin ∧
    (apply_desc desc config).args = config.args ∧
    (apply_desc desc config).qemu_version = config.qemu_version ∧
    (apply_desc desc config).desc =
      (match desc with
        | some d => some d
        | none => config.desc) := by
  have hcond : ((w.fs new_name).isSome && !force && !w.confirm) = false := by
    rcases hprompt with h | h | h <;> simp [h]
  refine ⟨?_, ?_, ?_, ?_, ?_, ?_⟩
  · simp [rename_command, hread, hparse, hcond, hwrite, hremove]
  · simp [rename_command, hread, hparse, hcond, hwrite, hremove]
  · cases desc <;> rfl
  · cases desc <;> rfl
  · cases desc <;> rfl
  · cases desc <;> rfl

theorem C7_witness :
    (((demoRenameWorld true true true).fs "a" = some "JA") ∧
      ((demoRenameWorld true true true).parse "JA" = some demoConfig) ∧
      ((demoRenameWorld true true true).confirm = true) ∧
      ((demoRenameWorld true true true).writeOk = true) ∧
      ((demoRenameWorld true true true).removeOk = true)) ∧
    ((rename_command (demoRenameWorld true true true) (some "fresh") false
        "a" "b").result = RenameResult.okRenamed ∧
      (rename_command (demoRenameWorld true true true) (some "fresh") false
          "a" "b").events =
        [FsEvent.wrote "b"
            ((demoRenameWorld true true true).pretty
              (apply_desc (some "fresh") demoConfig)),
          FsEvent.removed "a"] ∧
      (apply_desc (some "fresh") demoConfig).qemu_bin = demoConfig.qemu_bin ∧
      (apply_desc (some "fresh") demoConfig).args = demoConfig.args ∧
      (apply_desc (some "fresh") demoConfig).qemu_version =
        demoConfig.qemu_version ∧
      (apply_desc (some "fresh") demoConfig).desc =
        (match some "fresh" with
          | some d => some d
          | none => demoConfig.desc)) :=
  ⟨⟨rfl, rfl, rfl, rfl, rfl⟩,
    C7_rename_preserves_record (demoRenameWorld true true true) (some "fresh")
      false "a" "b" "JA" demoConfig rfl rfl (Or.inr (Or.inl rfl)) rfl rfl⟩

end Vex
